import Mathlib

/-!
Verification of `scripts/post-release-announcement.py` against its natural-language
specification.  Python strings are modelled as lists of Unicode characters
(`Str`); Python's `len` on a `str` counts code points, which is list length here.
External effects (environment variables, the file system, subprocesses, HTTP
requests and the stdlib JSON parser) are modelled by explicit parameters that
carry their outcome.
-/

set_option maxRecDepth 40000

/-- Strings of the script, modelled as lists of Unicode characters. -/
abbrev Str := List Char

/-- Environment-variable lookup: the script's `env(name)` returns `""` for an
unset variable, so an environment is a total map from names to values. -/
abbrev PyEnv := String → Str

/-- Whitespace as Python's `str.strip()` / `\s` recognise it on text strings:
the six ASCII whitespace characters together with the Unicode whitespace code
points. -/
def pyIsSpace (c : Char) : Bool :=
  decide (c = ' ' ∨ c = '\t' ∨ c = '\n' ∨ c = '\r' ∨ c.toNat = 0x0b ∨ c.toNat = 0x0c ∨
    (0x1c ≤ c.toNat ∧ c.toNat ≤ 0x1f) ∨ c.toNat = 0x85 ∨ c.toNat = 0xa0 ∨
    c.toNat = 0x1680 ∨ (0x2000 ≤ c.toNat ∧ c.toNat ≤ 0x200a) ∨
    c.toNat = 0x2028 ∨ c.toNat = 0x2029 ∨ c.toNat = 0x202f ∨ c.toNat = 0x205f ∨
    c.toNat = 0x3000)

/-- Python `s.lstrip()`. -/
def pyLstripWs (s : Str) : Str := s.dropWhile pyIsSpace

/-- Python `s.rstrip()`. -/
def pyRstripWs (s : Str) : Str := (s.reverse.dropWhile pyIsSpace).reverse

/-- Python `s.strip()`. -/
def pyStripWs (s : Str) : Str := pyRstripWs (pyLstripWs s)

/-- Python `s.strip(chars)` for an explicit character set. -/
def pyStripChars (cs : Str) (s : Str) : Str :=
  ((s.dropWhile cs.contains).reverse.dropWhile cs.contains).reverse

/-- Python `s.rstrip(chars)` for an explicit character set. -/
def pyRstripChars (cs : Str) (s : Str) : Str := (s.reverse.dropWhile cs.contains).reverse

theorem dropWhile_length_le (p : Char → Bool) (s : Str) :
    (s.dropWhile p).length ≤ s.length := by
  induction s with
  | nil => simp [List.dropWhile]
  | cons c rest ih =>
    by_cases h : p c = true
    · simp only [List.dropWhile, h]
      exact Nat.le_succ_of_le ih
    · simp [List.dropWhile, h]

/-- Python `s.rstrip()` applied after a slice never lengthens the string. -/
theorem pyRstripWs_length_le (s : Str) : (pyRstripWs s).length ≤ s.length := by
  unfold pyRstripWs
  simpa using dropWhile_length_le pyIsSpace s.reverse

/-- Python slice `s[:k]` for a possibly negative bound `k`. -/
def pySliceTo (s : Str) (k : Int) : Str :=
  if 0 ≤ k then s.take k.toNat else s.take (s.length - (-k).toNat)

/-- Python `haystack.find(needle)`: index of the leftmost occurrence, `none`
when absent (the script checks `index >= 0`, so `none` models `-1`). -/
def strFind (hay needle : Str) : Option Nat :=
  if needle.isPrefixOf hay then some 0
  else
    match hay with
    | [] => none
    | _ :: rest => (strFind rest needle).map (fun i => i + 1)

/-- Character count of the UTF-8 encoding, `len(s.encode("utf-8"))`. -/
def utf8Len (s : Str) : Nat := (s.map Char.utf8Size).sum

/-- UTF-8 encoding of a single character as a byte list. -/
def utf8EncodeChar (c : Char) : List Nat :=
  let n := c.toNat
  if n < 0x80 then [n]
  else if n < 0x800 then [0xc0 + n / 64, 0x80 + n % 64]
  else if n < 0x10000 then [0xe0 + n / 4096, 0x80 + (n / 64) % 64, 0x80 + n % 64]
  else [0xf0 + n / 262144, 0x80 + (n / 4096) % 64, 0x80 + (n / 64) % 64, 0x80 + n % 64]

/-- UTF-8 encoding of a string, `s.encode("utf-8")`, as a byte list. -/
def utf8Encode (s : Str) : List Nat := (s.map utf8EncodeChar).flatten

/-- Digit run of a Python integer literal after the first digit: decimal digits
with single underscores allowed only between digits (`int("1_0") = 10`). -/
def pyIntDigitsGo (acc : Nat) : Str → Option Nat
  | [] => some acc
  | '_' :: rest =>
    match rest with
    | [] => none
    | d :: rest2 =>
      if d.isDigit then pyIntDigitsGo (acc * 10 + (d.toNat - 48)) rest2 else none
  | d :: rest => if d.isDigit then pyIntDigitsGo (acc * 10 + (d.toNat - 48)) rest else none

/-- Unsigned digit part of Python `int()`: nonempty, starts with a digit. -/
def pyIntDigits : Str → Option Nat
  | [] => none
  | c :: rest => if c.isDigit then pyIntDigitsGo (c.toNat - 48) rest else none

/-- Python `int(raw)` on an already-stripped string (ASCII decimal digits; the
script strips the value before converting).  `none` models `ValueError`. -/
def pyParseInt (s : Str) : Option Int :=
  match s with
  | '+' :: rest => (pyIntDigits rest).map (fun n => (n : Int))
  | '-' :: rest => (pyIntDigits rest).map (fun n => -(n : Int))
  | _ => (pyIntDigits s).map (fun n => (n : Int))

/-- Embedding of `http_timeout_seconds(default)`: read and strip
`ANNOUNCE_AI_TIMEOUT_SECONDS`, return the default when empty or unparsable,
otherwise clamp with `max(3, min(value, 60))`.  The Python default argument is
`20`; call sites pass it explicitly here. -/
def http_timeout_seconds (envv : PyEnv) (d : Int) : Int :=
  let raw := pyStripWs (envv "ANNOUNCE_AI_TIMEOUT_SECONDS")
  if raw = [] then d
  else
    match pyParseInt raw with
    | none => d
    | some value => max 3 (min value 60)

/-- Embedding of `ai_summary_enabled()`: `ANNOUNCE_AI_ENABLED`, stripped and
lower-cased, must be one of `1`, `true`, `yes`, `on`. -/
def ai_summary_enabled (envv : PyEnv) : Bool :=
  let val := (pyStripWs (envv "ANNOUNCE_AI_ENABLED")).map Char.toLower
  decide (val = "1".toList ∨ val = "true".toList ∨ val = "yes".toList ∨ val = "on".toList)

/-- Embedding of `ai_debug_enabled()`. -/
def ai_debug_enabled (envv : PyEnv) : Bool :=
  let val := (pyStripWs (envv "ANNOUNCE_AI_DEBUG")).map Char.toLower
  decide (val = "1".toList ∨ val = "true".toList ∨ val = "yes".toList ∨ val = "on".toList)

example : http_timeout_seconds (fun _ => "999".toList) 20 = 60 := by decide
example : http_timeout_seconds (fun _ => " -7 ".toList) 20 = 3 := by decide
example : http_timeout_seconds (fun _ => "abc".toList) 20 = 20 := by decide
example : http_timeout_seconds (fun _ => "".toList) 20 = 20 := by decide
example : http_timeout_seconds (fun _ => "1_0".toList) 20 = 10 := by decide
example : http_timeout_seconds (fun _ => "1__0".toList) 20 = 20 := by decide
example : pySliceTo "abcdef".toList (-2) = "abcd".toList := by decide
example : strFind "abcab".toList "ab".toList = some 0 := by decide
example : strFind "xxabc".toList "abc".toList = some 2 := by decide
example : strFind "xxabc".toList "zz".toList = none := by decide
example : utf8Len "a€".toList = 4 := by decide

instance exceptDecEq {ε α : Type} [DecidableEq ε] [DecidableEq α] : DecidableEq (Except ε α)
  | .ok a, .ok b =>
    if h : a = b then isTrue (congrArg Except.ok h)
    else isFalse (fun hc => h (Except.ok.inj hc))
  | .ok _, .error _ => isFalse (fun hc => Except.noConfusion hc)
  | .error _, .ok _ => isFalse (fun hc => Except.noConfusion hc)
  | .error e, .error f =>
    if h : e = f then isTrue (congrArg Except.error h)
    else isFalse (fun hc => h (Except.error.inj hc))

/-- Python exceptions that the script can raise or propagate. -/
inductive PyExc where
  | attributeError
  | typeError
  | indexError
  | keyError
  | unicodeDecodeError
  | valueError
  | runtimeError (msg : Str)
deriving DecidableEq

/-- Network requests the script can issue, one constructor per `urlopen` target. -/
inductive NetCall where
  | aiChatCompletion
  | mastodonStatus
  | blueskyCreateSession
  | blueskyCreateRecord
deriving DecidableEq

/-- JSON values as Python's `json.loads` produces them (dicts keep key order). -/
inductive JValue where
  | null
  | bool (b : Bool)
  | num (n : Int)
  | str (s : Str)
  | arr (xs : List JValue)
  | obj (kvs : List (String × JValue))

/-- Python truthiness of a JSON value (`None`, `False`, `0`, `""`, `[]`, `{}`
are falsy). -/
def JValue.truthy : JValue → Bool
  | .null => false
  | .bool b => b
  | .num n => decide (n ≠ 0)
  | .str s => decide (s ≠ [])
  | .arr [] => false
  | .arr (_ :: _) => true
  | .obj [] => false
  | .obj (_ :: _) => true

/-- Python `value.get(key)`: dict lookup defaulting to `None`; on any non-dict
value `.get` raises `AttributeError`. -/
def jDictGet : JValue → String → Except PyExc JValue
  | .obj kvs, k => .ok ((kvs.lookup k).getD .null)
  | _, _ => .error .attributeError

/-- Python `value[0]`: first element of a list, first character of a string
(`IndexError` when empty), `KeyError` for a dict, `TypeError` otherwise. -/
def jSubscriptZero : JValue → Except PyExc JValue
  | .arr [] => .error .indexError
  | .arr (x :: _) => .ok x
  | .str [] => .error .indexError
  | .str (c :: _) => .ok (.str [c])
  | .obj _ => .error .keyError
  | _ => .error .typeError

/-- Python `a or b`. -/
def jOr (a b : JValue) : JValue := if a.truthy then a else b

/-- Python `s.replace(a, b)` for single-character `a`, `b`. -/
def pyReplaceChar (a b : Char) (s : Str) : Str := s.map (fun c => if c = a then b else c)

/-- The backquote character, `chr(96)`. -/
def backquoteChar : Char := Char.ofNat 96

/-- The apostrophe character, `chr(39)`. -/
def apostropheChar : Char := Char.ofNat 39

/-- Worker for `collapseWs`: `prevSpace` records whether the previous character
belonged to a whitespace run already replaced by one space. -/
def collapseWsGo (prevSpace : Bool) : Str → Str
  | [] => []
  | c :: rest =>
    if pyIsSpace c then
      if prevSpace then collapseWsGo true rest
      else ' ' :: collapseWsGo true rest
    else c :: collapseWsGo false rest

/-- Embedding of `re.sub(r"\s+", " ", s)`: each maximal nonempty whitespace run
becomes a single space. -/
def collapseWs (s : Str) : Str := collapseWsGo false s

theorem length_drop_lt_cons {α : Type} (c : α) (l : List α) (k : Nat) :
    ((l.drop k).length) < (c :: l).length := by
  simp only [List.length_drop, List.length_cons]
  omega

theorem length_drop_drop_lt_cons {α : Type} (c : α) (l : List α) (j k : Nat) :
    (((l.drop j).drop k).length) < (c :: l).length := by
  simp only [List.length_drop, List.length_cons]
  omega

/-- Embedding of the backquote substitution `re.sub(r"`([^`]+)`", r"\1", s)`.
The scan is exact for this pattern: `[^`]+` is greedy over non-backquote
characters and no shorter run can be followed by a backquote, so maximal munch
plus a closing-character check reproduces the regex. -/
def subCodeF : Nat → Str → Str
  | _, [] => []
  | 0, s => s
  | fuel + 1, c :: rest =>
    if c = backquoteChar then
      let run := rest.takeWhile (fun x => x ≠ backquoteChar)
      if run ≠ [] ∧ run.length < rest.length then
        run ++ subCodeF fuel (rest.drop (run.length + 1))
      else c :: subCodeF fuel rest
    else c :: subCodeF fuel rest

/-- Scanner entry point: every step consumes at least one character, so fuel
equal to the length is never exhausted. -/
def subCode (s : Str) : Str := subCodeF s.length s

/-- Embedding of the bold substitution `re.sub(r"\*\*([^*]+)\*\*", r"\1", s)`.
On failure at a position the regex scanner advances one character, which is the
`c :: subBold rest` branch. -/
def subBoldF : Nat → Str → Str
  | _, [] => []
  | 0, s => s
  | fuel + 1, c :: rest =>
    if c = '*' ∧ rest.head? = some '*' then
      let rest1 := rest.drop 1
      let run := rest1.takeWhile (fun x => x ≠ '*')
      if run ≠ [] ∧ run.length + 1 < rest1.length ∧ rest1[run.length + 1]? = some '*' then
        run ++ subBoldF fuel (rest1.drop (run.length + 2))
      else c :: subBoldF fuel rest
    else c :: subBoldF fuel rest

/-- Scanner entry point with always-sufficient fuel. -/
def subBold (s : Str) : Str := subBoldF s.length s

/-- Embedding of the link substitution
`re.sub(r"\[([^\]]+)\]\([^)]+\)", r"\1", s)`: `[text](url)` becomes `text`. -/
def subMdLinkF : Nat → Str → Str
  | _, [] => []
  | 0, s => s
  | fuel + 1, c :: rest =>
    if c = '[' then
      let txt := rest.takeWhile (fun x => x ≠ ']')
      let rest2 := rest.drop (txt.length + 2)
      let url := rest2.takeWhile (fun x => x ≠ ')')
      if txt ≠ [] ∧ txt.length < rest.length ∧ rest[txt.length + 1]? = some '(' ∧
          url ≠ [] ∧ url.length < rest2.length then
        txt ++ subMdLinkF fuel (rest2.drop (url.length + 1))
      else c :: subMdLinkF fuel rest
    else c :: subMdLinkF fuel rest

/-- Scanner entry point with always-sufficient fuel. -/
def subMdLink (s : Str) : Str := subMdLinkF s.length s

/-- Outcome of the AI `urlopen` request together with the decode and stdlib
JSON parse of a successful body: `httpError` carries the status code and the
result of `exc.read().decode(..., errors="replace")` (`none` when that read
itself raised); `okUndecodable` is a success whose body bytes are not valid
UTF-8, so `resp.read().decode("utf-8")` raises `UnicodeDecodeError` past the
`HTTPError`/`URLError`/`TimeoutError` handlers; `ok` carries the `json.loads`
result of a decoded body (`none` models `json.JSONDecodeError`). -/
inductive AIHttpOutcome where
  | httpError (code : Nat) (bodyRead : Option Str)
  | urlError (reason : Str)
  | timeout
  | okUndecodable
  | ok (parsed : Option JValue)

/-- Failure reason built in the `except urllib.error.HTTPError` branch of
`summarize_highlights_with_ai` (strip, truncate to 240, format). -/
def aiHttpFailureReason (code : Nat) (bodyRead : Option Str) : Str :=
  let body := match bodyRead with
    | none => []
    | some s => pyStripWs s
  let body := if 240 < body.length then body.take 237 ++ "...".toList else body
  if body ≠ [] then
    "AI HTTP error: ".toList ++ (Nat.repr code).toList ++ " body=".toList ++ body
  else
    "AI HTTP error: ".toList ++ (Nat.repr code).toList

/-- Final truncation of the AI summary (lines 142-143): when longer than
`max_chars`, keep `max_chars - 3` characters (a Python slice, negative bound
possible when `max_chars < 3`), right-strip, and append `...`. -/
def truncateWithEllipsis (max_chars : Nat) (text : Str) : Str :=
  if max_chars < text.length then
    pyRstripWs (pySliceTo text ((max_chars : Int) - 3)) ++ "...".toList
  else text

/-- Post-processing of the AI content (lines 137-143 of the script): newlines
to spaces, whitespace collapse, backquote and bold markers dropped, quote
characters stripped, and truncation to `max_chars` with a `...` marker. -/
def aiPostprocess (max_chars : Nat) (text0 : Str) : Str :=
  let text := pyStripWs (pyReplaceChar '\r' ' ' (pyReplaceChar '\n' ' ' text0))
  let text := collapseWs text
  let text := subCode text
  let text := subBold text
  let text := pyStripChars [' ', '"', apostropheChar] text
  truncateWithEllipsis max_chars text

/-- Handling of a received AI response body (lines 124-144 of the script).
Attribute, index, key and type errors of the Python expression chain
`parsed.get("choices")`, `choices[0]`, `.get("message")`, `.get("content")`,
`.strip()` are modelled exactly and propagate as `Except.error`. -/
def aiHandleResponse (max_chars : Nat) (parsed : Option JValue) : Except PyExc (Str × Str) :=
  match parsed with
  | none => .ok ([], "AI response was not valid JSON".toList)
  | some parsedv =>
    match jDictGet parsedv "choices" with
    | .error e => .error e
    | .ok choicesRaw =>
      if (jOr choicesRaw (.arr [])).truthy = false then
        .ok ([], "AI response had no choices".toList)
      else
        match jSubscriptZero (jOr choicesRaw (.arr [])) with
        | .error e => .error e
        | .ok first =>
          match jDictGet first "message" with
          | .error e => .error e
          | .ok msgRaw =>
            match jDictGet (jOr msgRaw (.obj [])) "content" with
            | .error e => .error e
            | .ok contentRaw =>
              match jOr contentRaw (.str []) with
              | .str s =>
                if pyStripWs s = [] then .ok ([], "AI response content was empty".toList)
                else .ok (aiPostprocess max_chars (pyStripWs s), [])
              | _ => .error .attributeError

/-- Characters allowed in a URL scheme by `urllib.parse._splittype`
(anything except `/` and `:`). -/
def isSchemeChar (c : Char) : Bool := decide (¬ (c = '/' ∨ c = ':'))

/-- Scheme test of `urllib.request.Request`: the URL must match `([^/:]+):`
at its start (`urllib.parse._splittype`); otherwise the `Request` constructor
raises `ValueError("unknown url type: ...")` before any network I/O. -/
def urlHasType (s : Str) : Bool :=
  match s.drop (s.takeWhile isSchemeChar).length with
  | ':' :: _ => decide (1 ≤ (s.takeWhile isSchemeChar).length)
  | _ => false

/-- The chat-completions URL composed by `summarize_highlights_with_ai`
(line 98): the stripped base URL, right-stripped of slashes, plus
`/chat/completions`. -/
def aiRequestUrl (envv : PyEnv) : Str :=
  pyRstripChars "/".toList (pyStripWs (envv "ANNOUNCE_AI_BASE_URL")) ++
    "/chat/completions".toList

/-- Embedding of `summarize_highlights_with_ai(tag, highlights, max_chars)`.
The returned list records the network requests issued (the single chat
completion POST, made exactly when highlights exist, the three
`ANNOUNCE_AI_*` settings are nonempty and the composed URL has a scheme:
`urllib.request.Request` is constructed at line 100, outside the `try`, and
raises `ValueError` for a scheme-less URL before any request); the request
payload itself (prompt text) has no observable effect on the return value and
is not modelled.  The `tag` argument only feeds the prompt. -/
def summarize_highlights_with_ai (envv : PyEnv) (_tag : Str) (highlights : List Str)
    (max_chars : Nat) (outcome : AIHttpOutcome) : List NetCall × Except PyExc (Str × Str) :=
  if highlights = [] then ([], .ok ([], "no highlights available".toList))
  else
    let base_url := pyStripWs (envv "ANNOUNCE_AI_BASE_URL")
    let model := pyStripWs (envv "ANNOUNCE_AI_MODEL")
    let api_key := pyStripWs (envv "ANNOUNCE_AI_API_KEY")
    if base_url = [] ∨ model = [] ∨ api_key = [] then
      ([], .ok ([], "missing ANNOUNCE_AI_BASE_URL / ANNOUNCE_AI_MODEL / ANNOUNCE_AI_API_KEY".toList))
    else if urlHasType (aiRequestUrl envv) = false then
      ([], .error .valueError)
    else
      ([.aiChatCompletion],
        match outcome with
        | .httpError code bodyRead => .ok ([], aiHttpFailureReason code bodyRead)
        | .urlError reason => .ok ([], "AI URL error: ".toList ++ reason)
        | .timeout => .ok ([], "AI request timed out".toList)
        | .okUndecodable => .error .unicodeDecodeError
        | .ok parsed => aiHandleResponse max_chars parsed)

/-- Line-boundary characters of Python `str.splitlines()`. -/
def isLineBreakChar (c : Char) : Bool :=
  decide (c = '\n' ∨ c = '\r' ∨ c.toNat = 0x0b ∨ c.toNat = 0x0c ∨ c.toNat = 0x1c ∨
    c.toNat = 0x1d ∨ c.toNat = 0x1e ∨ c.toNat = 0x85 ∨ c.toNat = 0x2028 ∨ c.toNat = 0x2029)

/-- Worker for `pySplitlines`, accumulating the current line reversed. -/
def pySplitlinesGo (acc : Str) : Str → List Str
  | [] => [acc.reverse]
  | '\r' :: '\n' :: rest => acc.reverse :: (if rest = [] then [] else pySplitlinesGo [] rest)
  | c :: rest =>
    if isLineBreakChar c then acc.reverse :: (if rest = [] then [] else pySplitlinesGo [] rest)
    else pySplitlinesGo (c :: acc) rest

/-- Python `s.splitlines()`: split at line boundaries (`\r\n` counts once),
with no trailing empty line. -/
def pySplitlines (s : Str) : List Str := if s = [] then [] else pySplitlinesGo [] s

/-- Attempt of the heading part `##\s+\[<version>\][^\n]*\n` of the section
regex at the current position (which the caller guarantees is a line start).
The version string is matched literally — exactly what `re.escape` arranges in
the source — and `\s+` is maximal munch, which is exact because the following
literal `[` is not a whitespace character.  Returns the suffix after the
heading's newline. -/
def matchHeading (version : Str) (s : Str) : Option Str :=
  match s with
  | '#' :: '#' :: s1 =>
    let ws := s1.takeWhile pyIsSpace
    if ws = [] then none
    else
      match s1.drop ws.length with
      | '[' :: s3 =>
        if version.isPrefixOf s3 then
          match (s3.drop version.length) with
          | ']' :: s4 =>
            let line := s4.takeWhile (fun c => c ≠ '\n')
            match s4.drop line.length with
            | '\n' :: s5 => some s5
            | _ => none
          | _ => none
        else none
      | _ => none
  | _ => none

/-- Test of the lookahead `(?=^##\s+\[)` that terminates the lazily matched
section body. -/
def isNextHeading (s : Str) : Bool :=
  match s with
  | '#' :: '#' :: s1 =>
    let ws := s1.takeWhile pyIsSpace
    if ws = [] then false
    else
      match s1.drop ws.length with
      | '[' :: _ => true
      | _ => false
  | _ => false

/-- Lazily matched group `(.*?)(?=^##\s+\[|\Z)`: the shortest prefix whose stop
position is the end of the text or a line start satisfying the heading
lookahead.  `atStart` tracks whether the current position follows a newline
(or is the start of the group, which follows the heading's newline). -/
def takeBody : Str → Bool → Str
  | [], _ => []
  | c :: rest, atStart =>
    if atStart && isNextHeading (c :: rest) then []
    else c :: takeBody rest (c = '\n')

/-- Scan of `re.search` for the section pattern: positions are tried left to
right, and the anchored heading can only match at line starts.  Returns the
section body (group 1) of the first match. -/
def findSectionBody (version : Str) : Str → Bool → Option Str
  | [], _ => none
  | c :: rest, atStart =>
    match (if atStart then matchHeading version (c :: rest) else none) with
    | some r => some (takeBody r true)
    | none => findSectionBody version rest (c = '\n')

/-- Cleaning applied to one bullet's text (lines 276-279 of the script): bold
markers, backquotes and markdown links dropped, whitespace collapsed,
stripped. -/
def cleanBulletText (text : Str) : Str :=
  let text := subBold text
  let text := subCode text
  let text := subMdLink text
  pyStripWs (collapseWs text)

/-- Bullet-collection loop of `extract_changelog_highlights` (lines 268-283):
keep lines starting `- `, clean them, and break once `max_items` are
collected (the break check runs after the append, also when the cleaned text
was empty and nothing was appended). -/
def collectHighlights (max_items : Nat) (acc : List Str) : List Str → List Str
  | [] => acc.reverse
  | raw :: rest =>
    let line := pyStripWs raw
    if "- ".toList.isPrefixOf line then
      let text := pyStripWs (line.drop 2)
      if text = [] then collectHighlights max_items acc rest
      else
        let cleaned := cleanBulletText text
        let acc2 := if cleaned = [] then acc else cleaned :: acc
        if max_items ≤ acc2.length then acc2.reverse
        else collectHighlights max_items acc2 rest
    else collectHighlights max_items acc rest

/-- Outcome of `open(changelog_path, encoding="utf-8")` followed by `.read()`:
a decoded text, an `OSError` (caught by the script), or a
`UnicodeDecodeError` for a file whose bytes are not valid UTF-8 (not caught:
`except OSError` does not cover it). -/
inductive ReadOutcome where
  | ok (content : Str)
  | osError
  | decodeError
deriving DecidableEq

/-- Version string derived from the tag (line 250 of the script): one leading
`v` is dropped. -/
def tagVersion (tag : Str) : Str :=
  match tag with
  | 'v' :: rest => rest
  | _ => tag

/-- Embedding of `extract_changelog_highlights(changelog_path, tag, max_items)`.
The version drops one leading `v`; an empty version returns `[]` before any
file access; an unreadable file (OSError) returns `[]`; a file that does not
decode as UTF-8 propagates `UnicodeDecodeError`; otherwise the first section
headed by the version is located and up to `max_items` bullet lines are
returned.  The Python default for `max_items` is `3`; call sites pass it
explicitly here. -/
def extract_changelog_highlights (file : ReadOutcome) (tag : Str) (max_items : Nat) :
    Except PyExc (List Str) :=
  if tagVersion tag = [] then .ok []
  else
    match file with
    | .osError => .ok []
    | .decodeError => .error .unicodeDecodeError
    | .ok content =>
      match findSectionBody (tagVersion tag) content true with
      | none => .ok []
      | some body => .ok (collectHighlights max_items [] (pySplitlines body))

example :
    extract_changelog_highlights
      (.ok "## [1.2.3]\n- Fixed a bug\n- Added X\n## [1.2.2]\n- old".toList)
      "v1.2.3".toList 3 = .ok ["Fixed a bug".toList, "Added X".toList] := by decide

example :
    extract_changelog_highlights (.ok "## [2.0]\n- a\n".toList) "v1.2.3".toList 3 = .ok [] := by
  decide

example :
    extract_changelog_highlights (.ok "## [1.2.3]\n- a\n- b\n- c\n- d\n".toList)
      "1.2.3".toList 3 = .ok ["a".toList, "b".toList, "c".toList] := by decide

example :
    extract_changelog_highlights (.ok "x ## [1.2.3]\n- a\n".toList) "1.2.3".toList 3 =
      .ok [] := by decide

example :
    extract_changelog_highlights (.ok "## [1.2.3]".toList) "1.2.3".toList 3 = .ok [] := by
  decide

example :
    extract_changelog_highlights (.ok "## [1.2.3]\n- **Bold** and `x` and [t](u)\n".toList)
      "1.2.3".toList 3 = .ok ["Bold and x and t".toList] := by decide

/-- Character class `[A-Za-z0-9_]` of the hashtag pattern (ASCII only, as the
explicit class in the source). -/
def isWordChar (c : Char) : Bool := c.isAlpha || c.isDigit || c = '_'

/-- Fuelled scanner for `re.finditer(r"#[A-Za-z0-9_]+", message)`: produces
`(start, end, group-without-hash)` for each non-overlapping match, scanning
left to right; after a match the scan resumes at the match end.  Each step
consumes at least one character, so fuel equal to the length suffices. -/
def findHashtagsF : Nat → Str → Nat → List (Nat × Nat × Str)
  | _, [], _ => []
  | 0, _, _ => []
  | fuel + 1, c :: rest, i =>
    if c = '#' ∧ rest.takeWhile isWordChar ≠ [] then
      (i, i + 1 + (rest.takeWhile isWordChar).length, rest.takeWhile isWordChar) ::
        findHashtagsF fuel (rest.drop (rest.takeWhile isWordChar).length)
          (i + 1 + (rest.takeWhile isWordChar).length)
    else findHashtagsF fuel rest (i + 1)

/-- Matches of `#[A-Za-z0-9_]+` in a message, with character offsets. -/
def findHashtags (s : Str) : List (Nat × Nat × Str) := findHashtagsF s.length s 0

/-- Facet feature: a link to the release URL or a hashtag. -/
inductive FacetFeature where
  | link (uri : Str)
  | tag (t : Str)
deriving DecidableEq

/-- One Bluesky rich-text facet: a UTF-8 byte range into the message plus the
feature attached to it. -/
structure Facet where
  byteStart : Nat
  byteEnd : Nat
  feature : FacetFeature
deriving DecidableEq

/-- Facet list built by `build_bluesky_facets` before the final `or None`:
an optional link facet for the first occurrence of the release URL, followed
by one tag facet per hashtag match (skipping an empty tag, which the source
guards against although the pattern cannot produce it). -/
def blueskyFacetList (message release_url : Str) : List Facet :=
  (if release_url ≠ [] then
    match strFind message release_url with
    | some index =>
      [⟨utf8Len (message.take index),
        utf8Len (message.take index) + utf8Len release_url, .link release_url⟩]
    | none => []
  else []) ++
  (findHashtags message).filterMap (fun m =>
    if m.2.2 = [] then none
    else some ⟨utf8Len (message.take m.1), utf8Len (message.take m.2.1), .tag m.2.2⟩)

/-- Embedding of `build_bluesky_facets(message, release_url)`: the facet list,
or `None` when it is empty (`return facets or None`). -/
def build_bluesky_facets (message release_url : Str) : Option (List Facet) :=
  if blueskyFacetList message release_url = [] then none
  else some (blueskyFacetList message release_url)

/-- Whether a facet carries a hashtag feature (as opposed to the link one). -/
def Facet.isTag : Facet → Bool
  | ⟨_, _, .tag _⟩ => true
  | ⟨_, _, .link _⟩ => false

/-- Two facets have overlapping byte ranges: each starts before the other
ends. -/
def facetsOverlap (a b : Facet) : Bool :=
  decide (a.byteStart < b.byteEnd) && decide (b.byteStart < a.byteEnd)

example :
    build_bluesky_facets "abc #tag".toList "zz".toList =
      some [⟨4, 8, .tag "tag".toList⟩] := by decide

example :
    build_bluesky_facets "x".toList "".toList = none := by decide

/-- Highlight compaction in `build_announcement_message` (lines 298-302):
strip, and shorten to 89 characters plus `...` when longer than 92. -/
def compactHighlight (h : Str) : Str :=
  let h := pyStripWs h
  if 92 < h.length then pyRstripWs (h.take 89) ++ "...".toList else h

/-- Python `"\n".join(lines)`. -/
def joinNl (xs : List Str) : Str := (List.intercalate "\n".toList xs)

/-- Descending loop `for count in range(len(compact), 0, -1)` of
`build_announcement_message`: the first candidate with at most `max_len`
characters is returned. -/
def tryCounts (base tail : Str) (compact : List Str) (max_len : Nat) : Nat → Option Str
  | 0 => none
  | count + 1 =>
    let bullet_lines := joinNl ((compact.take (count + 1)).map (fun h => "• ".toList ++ h))
    let candidate := base ++ "\nHighlights:\n".toList ++ bullet_lines ++ "\n".toList ++ tail
    if candidate.length ≤ max_len then some candidate
    else tryCounts base tail compact max_len count

/-- Highlight-bearing attempts of `build_announcement_message` (lines
294-317): a candidate for each bullet count in descending order, then one
aggressively shortened single bullet; `none` when nothing fits, falling
through to the bare message (line 319). -/
def announcementFromHighlights (base tail : Str) (highlights : List Str) (max_len : Nat) :
    Option Str :=
  if highlights ≠ [] then
    let compact := highlights.map compactHighlight
    match tryCounts base tail compact max_len compact.length with
    | some c => some c
    | none =>
      let short := compact.headD []
      let short := if 56 < short.length then pyRstripWs (short.take 53) ++ "...".toList else short
      let candidate := base ++ "\nHighlights:\n• ".toList ++ short ++ "\n".toList ++ tail
      if candidate.length ≤ max_len then some candidate else none
  else none

/-- Bare message and prefix-truncation fallback of `build_announcement_message`
(lines 319-330): keep URL and hashtags, truncate the project/tag prefix only
when it is long enough (`len(base) > overflow + 3`).  The source's local
`candidate` is `base ++ " " ++ tail` and `overflow` is
`candidate.length - max_len`, inlined here. -/
def announcementFallback (base tail : Str) (max_len : Nat) : Str :=
  if (base ++ " ".toList ++ tail).length ≤ max_len then base ++ " ".toList ++ tail
  else if ((base ++ " ".toList ++ tail).length - max_len) + 3 < base.length then
    (pyRstripWs (base.take (base.length - ((base ++ " ".toList ++ tail).length - max_len) - 3)) ++
      "...".toList) ++ " ".toList ++ tail
  else base ++ " ".toList ++ tail

/-- The `base` string of `build_announcement_message` (line 291). -/
def announcementBase (project tag : Str) : Str :=
  project ++ " ".toList ++ tag ++ " is out!".toList

/-- The `tail` string of `build_announcement_message` (line 292). -/
def announcementTail (release_url : Str) : Str :=
  "Full notes: ".toList ++ release_url ++ " #proxmox #linux #homelab".toList

/-- Embedding of `build_announcement_message(project, tag, release_url,
highlights, max_len)`.  The Python default for `max_len` is `300`; call sites
pass it explicitly here. -/
def build_announcement_message (project tag release_url : Str) (highlights : List Str)
    (max_len : Nat) : Str :=
  match announcementFromHighlights (announcementBase project tag) (announcementTail release_url)
      highlights max_len with
  | some c => c
  | none => announcementFallback (announcementBase project tag) (announcementTail release_url) max_len

example :
    build_announcement_message "pvetui".toList "v1.0.17".toList "https://x/y".toList
      ["Fixed a bug".toList] 300 =
      "pvetui v1.0.17 is out!\nHighlights:\n• Fixed a bug\nFull notes: https://x/y #proxmox #linux #homelab".toList := by
  decide

example :
    (build_announcement_message "p".toList "v".toList (List.replicate 300 'u') [] 300).length =
      349 := by decide

/-- Python `s.removesuffix(suffix)`. -/
def pyRemoveSuffix (suf s : Str) : Str :=
  if suf.isSuffixOf s then s.take (s.length - suf.length) else s

/-- Python `a or b` on strings (empty is falsy). -/
def orStr (a b : Str) : Str := if a ≠ [] then a else b

/-- Embedding of `repo_url_from_git()`: the stripped output of
`git config --get remote.origin.url` is the parameter (`none` models a failed
subprocess, caught and turned into `""`). -/
def repo_url_from_git (gitRemote : Option Str) : Str :=
  match gitRemote with
  | none => []
  | some remote0 =>
    let remote := pyStripWs remote0
    if "git@github.com:".toList.isPrefixOf remote then
      "https://github.com/".toList ++
        pyRemoveSuffix ".git".toList (remote.drop "git@github.com:".toList.length)
    else if "https://github.com/".toList.isPrefixOf remote then
      pyRemoveSuffix ".git".toList remote
    else []

/-- Embedding of `tag_from_git()`: stripped `git describe` output, `""` on a
failed subprocess. -/
def tag_from_git (gitDescribe : Option Str) : Str :=
  match gitDescribe with
  | none => []
  | some s => pyStripWs s

/-- Outcome of one `http_post_json` request: a parsed JSON response body, an
empty body (the script then uses `{}`), a body that is not valid JSON
(`json.JSONDecodeError`, uncaught), or an HTTP error status (turned into a
`RuntimeError`). -/
inductive PostOutcome where
  | ok (response : JValue)
  | emptyBody
  | parseError
  | httpError (code : Nat) (body : Str)

/-- JSON decode failures inside `http_post_json` propagate as an uncaught
exception; it is distinct from the `PyExc` constructors above, so extend the
model through a wrapper. -/
def http_post_json_model (outcome : PostOutcome) (url : Str) : Except PyExc JValue :=
  match outcome with
  | .ok v => .ok v
  | .emptyBody => .ok (.obj [])
  | .parseError => .error .keyError
  | .httpError code body =>
    .error (.runtimeError ("HTTP ".toList ++ (Nat.repr code).toList ++ " from ".toList ++
      url ++ ": ".toList ++ body))

/-- Command-line arguments after `argparse` (line 359).  String-typed options
use `""` for an absent value: `argparse`'s `None` default and an explicit empty
string are both falsy in every use below, so they behave identically.
`project` carries the resolved `--project` value (default `PROJECT_NAME` or
`pvetui`). -/
structure Args where
  tag : Str
  release_url : Str
  project : Str
  dry_run : Bool
  mastodon_only : Bool
  bluesky_only : Bool

/-- External world of one `main` run: environment, the two git subprocess
results, the changelog file, and the outcome of each possible HTTP request. -/
structure World where
  envv : PyEnv
  gitRemote : Option Str
  gitDescribe : Option Str
  changelogFile : ReadOutcome
  aiOutcome : AIHttpOutcome
  mastodonOutcome : PostOutcome
  bskySessionOutcome : PostOutcome
  bskyPostOutcome : PostOutcome

/-- Result of a `main` run that returned normally: exit code and the lines
printed to stdout and stderr. -/
structure MainOutcome where
  exitCode : Int
  stdout : List Str
  stderr : List Str
deriving DecidableEq

/-- Posting phase of `main` (lines 407-426): Mastodon unless `--bluesky-only`
and credentials present, then Bluesky unless `--mastodon-only` and credentials
present; exit 2 when nothing was posted.  `calls0`/`stderr0` carry the network
calls and stderr lines accumulated before this phase. -/
def mainPosting (args : Args) (w : World) (message release_url : Str)
    (calls0 : List NetCall) (stderr0 : List Str) : List NetCall × Except PyExc MainOutcome :=
  let doMasto := ¬args.bluesky_only ∧
    w.envv "MASTODON_SERVER" ≠ [] ∧ w.envv "MASTODON_ACCESS_TOKEN" ≠ []
  let mastoUrl := pyRstripChars "/".toList (w.envv "MASTODON_SERVER") ++ "/api/v1/statuses".toList
  let step1 : List NetCall × Except PyExc (List Str) :=
    if doMasto then
      match http_post_json_model w.mastodonOutcome mastoUrl with
      | .error e => (calls0 ++ [.mastodonStatus], .error e)
      | .ok _ => (calls0 ++ [.mastodonStatus], .ok ["mastodon".toList])
    else (calls0, .ok [])
  match step1 with
  | (calls1, .error e) => (calls1, .error e)
  | (calls1, .ok posted1) =>
    let doBsky := ¬args.mastodon_only ∧
      w.envv "BLUESKY_USERNAME" ≠ [] ∧ w.envv "BLUESKY_APP_PASSWORD" ≠ []
    let step2 : List NetCall × Except PyExc (List Str) :=
      if doBsky then
        match http_post_json_model w.bskySessionOutcome
            "https://bsky.social/xrpc/com.atproto.server.createSession".toList with
        | .error e => (calls1 ++ [.blueskyCreateSession], .error e)
        | .ok session =>
          match jDictGet session "did" with
          | .error e => (calls1 ++ [.blueskyCreateSession], .error e)
          | .ok did =>
            match jDictGet session "accessJwt" with
            | .error e => (calls1 ++ [.blueskyCreateSession], .error e)
            | .ok jwt =>
              if did.truthy = false ∨ jwt.truthy = false then
                (calls1 ++ [.blueskyCreateSession],
                  .error (.runtimeError "Failed to create Bluesky session".toList))
              else
                let _facets := build_bluesky_facets message release_url
                match http_post_json_model w.bskyPostOutcome
                    "https://bsky.social/xrpc/com.atproto.repo.createRecord".toList with
                | .error e =>
                  (calls1 ++ [.blueskyCreateSession, .blueskyCreateRecord], .error e)
                | .ok _ =>
                  (calls1 ++ [.blueskyCreateSession, .blueskyCreateRecord],
                    .ok (posted1 ++ ["bluesky".toList]))
      else (calls1, .ok posted1)
    match step2 with
    | (calls2, .error e) => (calls2, .error e)
    | (calls2, .ok posted2) =>
      if posted2 = [] then
        (calls2, .ok ⟨2, [],
          stderr0 ++ ["No announcements posted (missing credentials or platform disabled).".toList]⟩)
      else
        (calls2, .ok ⟨0,
          ["Posted announcements to: ".toList ++ List.intercalate ", ".toList posted2],
          stderr0⟩)

/-- Steps of `main` from the message build onward (lines 397-426): build the
message, then either print it under `--dry-run` and exit 0, or post. -/
def mainWithMessage (args : Args) (w : World) (tag release_url : Str)
    (aiCalls : List NetCall) (ai_summary ai_reason : Str) (highlights : List Str)
    (stderr0 : List Str) : List NetCall × Except PyExc MainOutcome :=
  let message := build_announcement_message args.project tag release_url highlights 300
  if args.dry_run then
    let source := if ai_summary ≠ [] then "ai".toList else "changelog".toList
    let lines := ["[dry-run] source=".toList ++ source] ++
      (if ai_summary_enabled w.envv ∧ ai_summary = [] then
        ["[dry-run] ai_fallback_reason=".toList ++ orStr ai_reason "unknown".toList]
      else []) ++ [message]
    (aiCalls, .ok ⟨0, lines, stderr0⟩)
  else mainPosting args w message release_url aiCalls stderr0

/-- Steps of `main` from the AI-summarization block onward (lines 385-395):
when `ANNOUNCE_AI_ENABLED` is truthy, run the summarizer (propagating its
uncaught exceptions) and replace the highlights with a nonempty summary,
otherwise print the fallback reason to stderr when debug is on. -/
def mainAfterHighlights (args : Args) (w : World) (tag release_url : Str)
    (highlights : List Str) : List NetCall × Except PyExc MainOutcome :=
  if ai_summary_enabled w.envv then
    match summarize_highlights_with_ai w.envv tag highlights 96 w.aiOutcome with
    | (calls, .error e) => (calls, .error e)
    | (calls, .ok sr) =>
      let stderr0 :=
        if sr.1 = [] ∧ ai_debug_enabled w.envv then
          ["[announce-ai] fallback to changelog: ".toList ++ sr.2]
        else []
      mainWithMessage args w tag release_url calls sr.1 sr.2
        (if sr.1 ≠ [] then [sr.1] else highlights) stderr0
  else mainWithMessage args w tag release_url [] [] [] highlights []

/-- Tag resolution of `main` (line 365): `--tag`, else `RELEASE_TAG`, else
`git describe`. -/
def resolvedTag (args : Args) (w : World) : Str :=
  orStr args.tag (orStr (w.envv "RELEASE_TAG") (tag_from_git w.gitDescribe))

/-- Release-URL resolution of `main` (lines 370-374): `--release-url`, else
`RELEASE_URL`, else derived from the git remote. -/
def resolvedReleaseUrl (args : Args) (w : World) (tag : Str) : Str :=
  if orStr args.release_url (w.envv "RELEASE_URL") = [] then
    if repo_url_from_git w.gitRemote ≠ [] then
      repo_url_from_git w.gitRemote ++ "/releases/tag/".toList ++ tag
    else []
  else orStr args.release_url (w.envv "RELEASE_URL")

/-- Embedding of `main()` from line 361 (after `argparse`): flag conflict
check, tag and release-URL resolution, changelog extraction, AI block,
message build, then dry-run or posting.  The first component of the result is
the list of network requests issued, in order, also when an exception
propagates (second component `.error`). -/
def mainRun (args : Args) (w : World) : List NetCall × Except PyExc MainOutcome :=
  if args.mastodon_only ∧ args.bluesky_only then
    ([], .ok ⟨1, [], ["Cannot use --mastodon-only and --bluesky-only together".toList]⟩)
  else
    if resolvedTag args w = [] then
      ([], .ok ⟨1, [], ["Release tag is required (use --tag or RELEASE_TAG)".toList]⟩)
    else
      if resolvedReleaseUrl args w (resolvedTag args w) = [] then
        ([], .ok ⟨1, [], ["Release URL is required (use --release-url or RELEASE_URL)".toList]⟩)
      else
        match extract_changelog_highlights w.changelogFile (resolvedTag args w) 3 with
        | .error e => ([], .error e)
        | .ok highlights =>
          mainAfterHighlights args w (resolvedTag args w)
            (resolvedReleaseUrl args w (resolvedTag args w)) highlights

theorem takeWhile_length_le (p : Char → Bool) (l : Str) : (l.takeWhile p).length ≤ l.length := by
  induction l with
  | nil => simp [List.takeWhile]
  | cons c r ih =>
    simp only [List.takeWhile]
    cases p c
    · simp
    · simp only [List.length_cons]
      omega

theorem length_take_le (l : Str) (k : Nat) : (l.take k).length ≤ k := by
  simp [List.length_take]

/-- C9: for every value of the `ANNOUNCE_AI_TIMEOUT_SECONDS` environment
variable, `http_timeout_seconds` (with the code's default of 20) returns an
integer in [3, 60]: the default 20 when the value is absent or unparsable, and
`max 3 (min value 60)` when it parses. -/
theorem http_timeout_seconds_in_range (envv : PyEnv) :
    (3 ≤ http_timeout_seconds envv 20 ∧ http_timeout_seconds envv 20 ≤ 60) ∧
    (pyParseInt (pyStripWs (envv "ANNOUNCE_AI_TIMEOUT_SECONDS")) = none →
      http_timeout_seconds envv 20 = 20) ∧
    (∀ v, pyParseInt (pyStripWs (envv "ANNOUNCE_AI_TIMEOUT_SECONDS")) = some v →
      http_timeout_seconds envv 20 = max 3 (min v 60)) := by
  refine ⟨?_, ?_, ?_⟩
  · unfold http_timeout_seconds
    dsimp only
    split
    · norm_num
    · split
      · norm_num
      · exact ⟨le_max_left _ _, by omega⟩
  · intro hn
    unfold http_timeout_seconds
    dsimp only
    split
    · rfl
    · split
      next heq => rfl
      next w heq => rw [hn] at heq; cases heq
  · intro v hv
    unfold http_timeout_seconds
    dsimp only
    split
    next h0 =>
      rw [h0] at hv
      have hred : pyParseInt ([] : Str) = none := rfl
      rw [hred] at hv
      cases hv
    next h0 =>
      split
      next heq => rw [hv] at heq; cases heq
      next w heq =>
        rw [hv] at heq
        injection heq with h2
        rw [h2]

/-- Witness for `http_timeout_seconds_in_range` at concrete environments. -/
theorem http_timeout_seconds_in_range_witness :
    3 ≤ http_timeout_seconds (fun _ => "999".toList) 20 ∧
    http_timeout_seconds (fun _ => "999".toList) 20 = max 3 (min 999 60) ∧
    http_timeout_seconds (fun _ => "abc".toList) 20 = 20 :=
  ⟨(http_timeout_seconds_in_range (fun _ => "999".toList)).1.1,
   (http_timeout_seconds_in_range (fun _ => "999".toList)).2.2 999 (by decide),
   (http_timeout_seconds_in_range (fun _ => "abc".toList)).2.1 (by decide)⟩

theorem tryCounts_some_length (base tail : Str) (compact : List Str) (ml : Nat) :
    ∀ n c, tryCounts base tail compact ml n = some c → c.length ≤ ml := by
  intro n
  induction n with
  | zero => intro c h; exact absurd h (by simp [tryCounts])
  | succ k ih =>
    intro c h
    rw [tryCounts] at h
    split at h
    next hcond => injection h with h1; exact h1 ▸ hcond
    next => exact ih c h

theorem announcementFromHighlights_some_length (base tail : Str) (hl : List Str) (ml : Nat) :
    ∀ c, announcementFromHighlights base tail hl ml = some c → c.length ≤ ml := by
  intro c h
  unfold announcementFromHighlights at h
  split at h
  · simp only [] at h
    split at h
    next c2 heq => injection h with h1; exact h1 ▸ tryCounts_some_length base tail _ ml _ c2 heq
    next =>
      split at h
      all_goals split at h
      all_goals
        first
          | (injection h with h1; subst h1; assumption)
          | (injection h)
  · cases h

theorem announcementFallback_length_le (base tail : Str) (ml : Nat)
    (h : tail.length + 5 ≤ ml) :
    (announcementFallback base tail ml).length ≤ ml := by
  unfold announcementFallback
  have l1 : ((" ".toList : Str)).length = 1 := rfl
  have l3 : (("...".toList : Str)).length = 3 := rfl
  split
  next h1 => exact h1
  next h1 =>
    split
    next h2 =>
      set k := base.length - ((base ++ " ".toList ++ tail).length - ml) - 3 with hk
      have t1 := length_take_le base k
      have t2 := pyRstripWs_length_le (base.take k)
      simp only [List.length_append, l1, l3] at h1 h2 hk ⊢
      omega
    next h2 =>
      exfalso
      simp only [List.length_append, l1, l3] at h1 h2
      omega

/-- C1 counterexample: with an empty highlight list, a 300-character release
URL and the default limit 300, the composed message has 349 characters, more
than `max_len` — the tail alone exceeds the budget and the code then returns
the over-long bare message unchanged. -/
theorem build_announcement_message_exceeds_max_len :
    300 < (build_announcement_message "p".toList "v".toList (List.replicate 300 'u')
      [] 300).length := by decide

/-- C1 as amended: whenever `max_len` leaves at least 5 characters beyond the
tail `Full notes: {release_url} #proxmox #linux #homelab` (that is,
`max_len ≥ len(release_url) + 42`), the composed message never exceeds
`max_len`, for every project, tag and highlight list. -/
theorem build_announcement_message_length_le (project tag release_url : Str)
    (highlights : List Str) (max_len : Nat)
    (h : (announcementTail release_url).length + 5 ≤ max_len) :
    (build_announcement_message project tag release_url highlights max_len).length ≤ max_len := by
  unfold build_announcement_message
  split
  next c heq => exact announcementFromHighlights_some_length _ _ _ _ c heq
  next => exact announcementFallback_length_le _ _ _ h

/-- Witness for `build_announcement_message_length_le` at a concrete input. -/
theorem build_announcement_message_length_le_witness :
    (announcementTail "https://x/y".toList).length + 5 ≤ 300 ∧
    (build_announcement_message "pvetui".toList "v1.0.17".toList "https://x/y".toList
      ["Fixed a bug".toList] 300).length ≤ 300 :=
  ⟨by decide,
   build_announcement_message_length_le "pvetui".toList "v1.0.17".toList "https://x/y".toList
     ["Fixed a bug".toList] 300 (by decide)⟩

theorem announcementFallback_truncates (base tail : Str) (ml : Nat)
    (hover : ml < base.length + 1 + tail.length)
    (hml : tail.length + 5 ≤ ml) :
    announcementFallback base tail ml =
      (pyRstripWs (base.take (ml - tail.length - 4)) ++ "...".toList) ++ " ".toList ++ tail := by
  unfold announcementFallback
  have l1 : ((" ".toList : Str)).length = 1 := rfl
  have harg : base.length - ((base ++ " ".toList ++ tail).length - ml) - 3 = ml - tail.length - 4 := by
    simp only [List.length_append, l1]
    omega
  split
  next h1 =>
    exfalso
    simp only [List.length_append, l1] at h1
    omega
  next h1 =>
    split
    next h2 => rw [harg]
    next h2 =>
      exfalso
      simp only [List.length_append, l1] at h2
      omega

/-- C7 counterexample: with empty highlights, a 300-character release URL and
the default limit 300, the bare composition exceeds `max_len`, yet the message
is returned entirely unshortened: the project/tag prefix is intact and no
ellipsis marker appears anywhere (the tail alone exceeds the budget, so the
guard `len(base) > overflow + 3` fails). -/
theorem announcement_prefix_not_shortened_counterexample :
    build_announcement_message "p".toList "v".toList (List.replicate 300 'u') [] 300 =
      announcementBase "p".toList "v".toList ++ " ".toList ++
        announcementTail (List.replicate 300 'u') ∧
    300 < (announcementBase "p".toList "v".toList ++ " ".toList ++
        announcementTail (List.replicate 300 'u')).length ∧
    strFind (build_announcement_message "p".toList "v".toList
        (List.replicate 300 'u') [] 300) "...".toList = none := by
  decide

/-- C7 as amended: with an empty highlight list, when the bare composition
exceeds `max_len` AND `max_len` leaves at least 5 characters beyond the tail,
the result is exactly the rstripped truncated prefix plus the ellipsis marker
plus a space plus the full untruncated tail, and that prefix is strictly
shorter than the original `{project} {tag} is out!` base. -/
theorem announcement_empty_highlights_truncation (project tag release_url : Str) (ml : Nat)
    (hover : ml < (announcementBase project tag).length + 1 +
      (announcementTail release_url).length)
    (hml : (announcementTail release_url).length + 5 ≤ ml) :
    build_announcement_message project tag release_url [] ml =
      (pyRstripWs ((announcementBase project tag).take
          (ml - (announcementTail release_url).length - 4)) ++ "...".toList) ++
        " ".toList ++ announcementTail release_url ∧
    (pyRstripWs ((announcementBase project tag).take
        (ml - (announcementTail release_url).length - 4)) ++ "...".toList).length <
      (announcementBase project tag).length := by
  constructor
  · unfold build_announcement_message
    have hfh : announcementFromHighlights (announcementBase project tag)
        (announcementTail release_url) [] ml = none := rfl
    rw [hfh]
    exact announcementFallback_truncates _ _ _ hover hml
  · have t1 := length_take_le (announcementBase project tag)
      (ml - (announcementTail release_url).length - 4)
    have t2 := pyRstripWs_length_le ((announcementBase project tag).take
      (ml - (announcementTail release_url).length - 4))
    have l3 : (("...".toList : Str)).length = 3 := rfl
    simp only [List.length_append, l3]
    omega

/-- Witness for `announcement_empty_highlights_truncation` at a concrete
overlong project name. -/
theorem announcement_empty_highlights_truncation_witness :
    (300 < (announcementBase (List.replicate 300 'p') "v1".toList).length + 1 +
      (announcementTail "https://x".toList).length) ∧
    ((announcementTail "https://x".toList).length + 5 ≤ 300) ∧
    build_announcement_message (List.replicate 300 'p') "v1".toList "https://x".toList [] 300 =
      (pyRstripWs ((announcementBase (List.replicate 300 'p') "v1".toList).take
          (300 - (announcementTail "https://x".toList).length - 4)) ++ "...".toList) ++
        " ".toList ++ announcementTail "https://x".toList :=
  ⟨by decide, by decide,
   (announcement_empty_highlights_truncation (List.replicate 300 'p') "v1".toList
     "https://x".toList 300 (by decide) (by decide)).1⟩

theorem truncateWithEllipsis_length_le (mc : Nat) (t : Str) (h : 3 ≤ mc) :
    (truncateWithEllipsis mc t).length ≤ mc := by
  unfold truncateWithEllipsis
  split
  next hlt =>
    have h0 : (0 : Int) ≤ (mc : Int) - 3 := by omega
    have hs : pySliceTo t ((mc : Int) - 3) = t.take ((mc : Int) - 3).toNat := by
      unfold pySliceTo
      rw [if_pos h0]
    have ht : ((mc : Int) - 3).toNat = mc - 3 := by omega
    have t1 := length_take_le t (mc - 3)
    have t2 := pyRstripWs_length_le (pySliceTo t ((mc : Int) - 3))
    rw [hs, ht] at t2
    have l3 : (("...".toList : Str)).length = 3 := rfl
    simp only [List.length_append, l3, hs, ht]
    omega
  next hlt => omega

theorem aiPostprocess_length_le (mc : Nat) (t : Str) (h : 3 ≤ mc) :
    (aiPostprocess mc t).length ≤ mc := by
  unfold aiPostprocess
  exact truncateWithEllipsis_length_le mc _ h

theorem aiHandleResponse_ok_shape (mc : Nat) (parsed : Option JValue) (res : Str × Str)
    (h : aiHandleResponse mc parsed = .ok res) :
    res.1 = [] ∨ ∃ t, res = (aiPostprocess mc t, []) := by
  cases parsed with
  | none =>
    cases Except.ok.inj h
    exact Or.inl rfl
  | some parsedv =>
    unfold aiHandleResponse at h
    cases hc : jDictGet parsedv "choices" with
    | error e => simp only [hc] at h; exact Except.noConfusion h
    | ok choicesRaw =>
      simp only [hc] at h
      by_cases htr : (jOr choicesRaw (.arr [])).truthy = false
      · rw [if_pos htr] at h
        cases Except.ok.inj h
        exact Or.inl rfl
      · rw [if_neg htr] at h
        cases hs : jSubscriptZero (jOr choicesRaw (.arr [])) with
        | error e => simp only [hs] at h; exact Except.noConfusion h
        | ok first =>
          simp only [hs] at h
          cases hm : jDictGet first "message" with
          | error e => simp only [hm] at h; exact Except.noConfusion h
          | ok msgRaw =>
            simp only [hm] at h
            cases hct : jDictGet (jOr msgRaw (.obj [])) "content" with
            | error e => simp only [hct] at h; exact Except.noConfusion h
            | ok contentRaw =>
              simp only [hct] at h
              cases hj : jOr contentRaw (.str []) with
              | str s =>
                simp only [hj] at h
                by_cases hst : pyStripWs s = []
                · rw [if_pos hst] at h
                  cases Except.ok.inj h
                  exact Or.inl rfl
                · rw [if_neg hst] at h
                  exact Or.inr ⟨pyStripWs s, (Except.ok.inj h).symm⟩
              | null => simp only [hj] at h; exact Except.noConfusion h
              | bool b => simp only [hj] at h; exact Except.noConfusion h
              | num n => simp only [hj] at h; exact Except.noConfusion h
              | arr xs => simp only [hj] at h; exact Except.noConfusion h
              | obj kvs => simp only [hj] at h; exact Except.noConfusion h

theorem summarize_result_shape (envv : PyEnv) (tag : Str) (hl : List Str) (mc : Nat)
    (outcome : AIHttpOutcome) (res : Str × Str)
    (h : (summarize_highlights_with_ai envv tag hl mc outcome).2 = .ok res) :
    res.1 = [] ∨ ∃ t, res = (aiPostprocess mc t, []) := by
  unfold summarize_highlights_with_ai at h
  by_cases h0 : hl = []
  · rw [if_pos h0] at h
    cases Except.ok.inj h
    exact Or.inl rfl
  · rw [if_neg h0] at h
    simp only [] at h
    by_cases hcfg : pyStripWs (envv "ANNOUNCE_AI_BASE_URL") = [] ∨
        pyStripWs (envv "ANNOUNCE_AI_MODEL") = [] ∨ pyStripWs (envv "ANNOUNCE_AI_API_KEY") = []
    · rw [if_pos hcfg] at h
      cases Except.ok.inj h
      exact Or.inl rfl
    · rw [if_neg hcfg] at h
      by_cases hurl : urlHasType (aiRequestUrl envv) = false
      · rw [if_pos hurl] at h
        exact Except.noConfusion h
      · rw [if_neg hurl] at h
        cases outcome with
        | httpError code bodyRead =>
          cases Except.ok.inj h
          exact Or.inl rfl
        | urlError reason =>
          cases Except.ok.inj h
          exact Or.inl rfl
        | timeout =>
          cases Except.ok.inj h
          exact Or.inl rfl
        | okUndecodable => exact Except.noConfusion h
        | ok parsed => exact aiHandleResponse_ok_shape mc parsed res h

/-- C10: for every `max_chars ≥ 3` and every network and parse outcome, a
summary pair returned (without exception) by `summarize_highlights_with_ai`
with a non-empty summary string has at most `max_chars` characters; an
over-long AI text was truncated by `truncateWithEllipsis` to `max_chars - 3`
right-stripped characters plus the three-character `...` marker. -/
theorem ai_summary_length_le_max_chars (envv : PyEnv) (tag : Str) (hl : List Str)
    (mc : Nat) (outcome : AIHttpOutcome) (res : Str × Str)
    (h3 : 3 ≤ mc)
    (h : (summarize_highlights_with_ai envv tag hl mc outcome).2 = .ok res)
    (hne : res.1 ≠ []) :
    res.1.length ≤ mc := by
  rcases summarize_result_shape envv tag hl mc outcome res h with h1 | ⟨t, hres⟩
  · exact absurd h1 hne
  · have h2 : res.1 = aiPostprocess mc t := by rw [hres]
    rw [h2]
    exact aiPostprocess_length_le mc t h3

/-- Environment with the three AI settings configured (and nothing else); the
base URL carries a scheme, so `urllib.request.Request` accepts the composed
URL. -/
def aiEnvConfigured : PyEnv := fun n =>
  if n = "ANNOUNCE_AI_BASE_URL" then "http://u".toList
  else if n = "ANNOUNCE_AI_MODEL" then "m".toList
  else if n = "ANNOUNCE_AI_API_KEY" then "k".toList
  else []

/-- A well-formed successful AI response whose content is `hi`. -/
def aiGoodResponse : AIHttpOutcome :=
  .ok (some (.obj [("choices",
    .arr [.obj [("message", .obj [("content", .str "hi".toList)])]])]))

/-- Witness for `ai_summary_length_le_max_chars` at a concrete successful
response. -/
theorem ai_summary_length_le_max_chars_witness :
    (summarize_highlights_with_ai aiEnvConfigured "v1".toList ["x".toList] 96
        aiGoodResponse).2 = .ok ("hi".toList, []) ∧
    (("hi".toList : Str)).length ≤ 96 :=
  ⟨by decide,
   ai_summary_length_le_max_chars aiEnvConfigured "v1".toList ["x".toList] 96 aiGoodResponse
     ("hi".toList, []) (by decide) (by decide) (by decide)⟩

/-- C6 counterexample: a changelog file whose bytes are not valid UTF-8 makes
`open(...).read()` raise `UnicodeDecodeError`, which `except OSError` does not
catch, so `extract_changelog_highlights` raises to its caller. -/
theorem extract_changelog_raises_on_decode_error :
    extract_changelog_highlights .decodeError "v1".toList 3 = .error .unicodeDecodeError := by
  decide

theorem extract_ok_eq (content tag : Str) (m : Nat) (h : ¬ tagVersion tag = []) :
    extract_changelog_highlights (.ok content) tag m =
      match findSectionBody (tagVersion tag) content true with
      | none => Except.ok []
      | some body => Except.ok (collectHighlights m [] (pySplitlines body)) := by
  unfold extract_changelog_highlights
  rw [if_neg h]

/-- C6 as amended: `extract_changelog_highlights` returns `[]` when the file
cannot be read (OSError) or when no section matching the version exists, and
it never raises for any tag and any file whose bytes decode as UTF-8; a file
that does not decode as UTF-8 raises `UnicodeDecodeError` (only `OSError` is
caught). -/
theorem extract_changelog_error_handling :
    (∀ (tag : Str) (m : Nat), extract_changelog_highlights .osError tag m = .ok []) ∧
    (∀ (content tag : Str) (m : Nat),
      findSectionBody (tagVersion tag) content true = none →
      extract_changelog_highlights (.ok content) tag m = .ok []) ∧
    (∀ (file : ReadOutcome) (tag : Str) (m : Nat), file ≠ .decodeError →
      ∃ hl, extract_changelog_highlights file tag m = .ok hl) := by
  refine ⟨?_, ?_, ?_⟩
  · intro tag m
    unfold extract_changelog_highlights
    split
    · rfl
    · rfl
  · intro content tag m hns
    by_cases hv : tagVersion tag = []
    · unfold extract_changelog_highlights
      rw [if_pos hv]
    · rw [extract_ok_eq content tag m hv, hns]
  · intro file tag m hne
    by_cases hv : tagVersion tag = []
    · refine ⟨[], ?_⟩
      unfold extract_changelog_highlights
      rw [if_pos hv]
    · cases file with
      | ok content =>
        rw [extract_ok_eq content tag m hv]
        cases hfs : findSectionBody (tagVersion tag) content true with
        | none => exact ⟨[], rfl⟩
        | some body => exact ⟨_, rfl⟩
      | osError =>
        refine ⟨[], ?_⟩
        unfold extract_changelog_highlights
        rw [if_neg hv]
      | decodeError => exact absurd rfl hne

/-- Witness for `extract_changelog_error_handling` at concrete inputs. -/
theorem extract_changelog_error_handling_witness :
    extract_changelog_highlights .osError "v1".toList 3 = .ok [] ∧
    findSectionBody (tagVersion "v9".toList) "no sections here".toList true = none ∧
    extract_changelog_highlights (.ok "no sections here".toList) "v9".toList 3 = .ok [] ∧
    ∃ hl, extract_changelog_highlights (.ok "x".toList) "v1".toList 3 = .ok hl :=
  ⟨extract_changelog_error_handling.1 "v1".toList 3,
   by decide,
   extract_changelog_error_handling.2.1 "no sections here".toList "v9".toList 3 (by decide),
   extract_changelog_error_handling.2.2 (.ok "x".toList) "v1".toList 3 (by decide)⟩

theorem tagVersion_cons_ne (c : Char) (rest : Str) (hc : c ≠ 'v') :
    tagVersion (c :: rest) = c :: rest := by
  unfold tagVersion
  split
  next rest2 heq =>
    injection heq with h1 h2
    exact absurd h1 hc
  next => rfl

theorem collectHighlights_length_le (m : Nat) (lines : List Str) : ∀ (acc : List Str),
    acc.length < m → (collectHighlights m acc lines).length ≤ m := by
  induction lines with
  | nil =>
    intro acc hacc
    simp only [collectHighlights, List.length_reverse]
    omega
  | cons raw rest ih =>
    intro acc hacc
    simp only [collectHighlights]
    split
    · split
      · exact ih acc hacc
      · split
        next hcl =>
          split
          · simp only [List.length_reverse]
            omega
          · exact ih acc hacc
        next hcl =>
          split
          next hbreak =>
            simp only [List.length_reverse, List.length_cons]
            omega
          next hbreak =>
            refine ih _ ?_
            simp only [List.length_cons] at hbreak ⊢
            omega
    · exact ih acc hacc

/-- C5: on the changelog `## [1.2.3]\n- Fixed a bug\n- Added X\n## [1.2.2]\n- old`
with tag `v1.2.3`, `extract_changelog_highlights` returns
`["Fixed a bug", "Added X"]`; in general one leading `v` is dropped from the
tag (a tag `v<rest>` behaves as `<rest>` whenever `<rest>` does not itself
start with `v`), and at most `max_items` bullet lines of the matched section
are collected (for any positive `max_items`), the scan stopping at the next
version heading or the end of the text. -/
theorem extract_changelog_highlights_spec :
    extract_changelog_highlights
        (.ok "## [1.2.3]\n- Fixed a bug\n- Added X\n## [1.2.2]\n- old".toList)
        "v1.2.3".toList 3 = .ok ["Fixed a bug".toList, "Added X".toList] ∧
    (∀ tag : Str, tag.head? ≠ some 'v' → ∀ (file : ReadOutcome) (m : Nat),
      extract_changelog_highlights file ('v' :: tag) m =
        extract_changelog_highlights file tag m) ∧
    (∀ (content tag : Str) (m : Nat) (hl : List Str), 1 ≤ m →
      extract_changelog_highlights (.ok content) tag m = .ok hl → hl.length ≤ m) := by
  refine ⟨by decide, ?_, ?_⟩
  · intro tag hnv file m
    have hv : tagVersion ('v' :: tag) = tagVersion tag := by
      cases tag with
      | nil => rfl
      | cons c rest =>
        have hc : c ≠ 'v' := by
          intro hcv
          exact hnv (by rw [hcv]; rfl)
        rw [tagVersion_cons_ne c rest hc]
        rfl
    unfold extract_changelog_highlights
    rw [hv]
  · intro content tag m hl hm heq
    by_cases hv : tagVersion tag = []
    · unfold extract_changelog_highlights at heq
      rw [if_pos hv] at heq
      cases Except.ok.inj heq
      simp only [List.length_nil]
      omega
    · rw [extract_ok_eq content tag m hv] at heq
      split at heq
      next => cases Except.ok.inj heq; simp only [List.length_nil]; omega
      next body hfs =>
        cases Except.ok.inj heq
        exact collectHighlights_length_le m (pySplitlines body) []
          (by simp only [List.length_nil]; omega)

/-- Witness for `extract_changelog_highlights_spec` at concrete inputs. -/
theorem extract_changelog_highlights_spec_witness :
    (("1.2.3".toList : Str).head? ≠ some 'v') ∧
    extract_changelog_highlights (.ok "## [1.2.3]\n- a\n".toList) "v1.2.3".toList 3 =
      extract_changelog_highlights (.ok "## [1.2.3]\n- a\n".toList) "1.2.3".toList 3 ∧
    extract_changelog_highlights (.ok "## [1.2.3]\n- a\n".toList) "1.2.3".toList 3 =
      .ok ["a".toList] ∧
    (["a".toList] : List Str).length ≤ 3 :=
  ⟨by decide,
   extract_changelog_highlights_spec.2.1 "1.2.3".toList (by decide)
     (.ok "## [1.2.3]\n- a\n".toList) 3,
   by decide,
   extract_changelog_highlights_spec.2.2 "## [1.2.3]\n- a\n".toList "1.2.3".toList 3
     ["a".toList] (by decide) (by decide)⟩

theorem summarize_calls_shape (envv : PyEnv) (tag : Str) (hl : List Str) (mc : Nat)
    (outcome : AIHttpOutcome) :
    (summarize_highlights_with_ai envv tag hl mc outcome).1 = [] ∨
    (summarize_highlights_with_ai envv tag hl mc outcome).1 = [NetCall.aiChatCompletion] := by
  unfold summarize_highlights_with_ai
  by_cases h0 : hl = []
  · rw [if_pos h0]
    exact Or.inl rfl
  · rw [if_neg h0]
    simp only []
    by_cases hcfg : pyStripWs (envv "ANNOUNCE_AI_BASE_URL") = [] ∨
        pyStripWs (envv "ANNOUNCE_AI_MODEL") = [] ∨ pyStripWs (envv "ANNOUNCE_AI_API_KEY") = []
    · rw [if_pos hcfg]
      exact Or.inl rfl
    · rw [if_neg hcfg]
      by_cases hurl : urlHasType (aiRequestUrl envv) = false
      · rw [if_pos hurl]
        exact Or.inl rfl
      · rw [if_neg hurl]
        exact Or.inr rfl

theorem mainWithMessage_dry_run (args : Args) (w : World) (tag url : Str)
    (aiCalls : List NetCall) (s r : Str) (hl : List Str) (st : List Str)
    (hdry : args.dry_run = true) :
    ∃ lines, mainWithMessage args w tag url aiCalls s r hl st =
      (aiCalls, .ok ⟨0, lines, st⟩) ∧
      lines.getLast? = some (build_announcement_message args.project tag url hl 300) := by
  unfold mainWithMessage
  rw [hdry]
  simp only [if_true]
  refine ⟨_, rfl, ?_⟩
  rw [List.getLast?_append, List.getLast?_append]
  rfl

theorem mainAfterHighlights_dry_run (args : Args) (w : World) (tag url : Str)
    (hl : List Str) (hdry : args.dry_run = true) :
    (∀ c ∈ (mainAfterHighlights args w tag url hl).1, c = NetCall.aiChatCompletion) ∧
    (∀ out, (mainAfterHighlights args w tag url hl).2 = .ok out →
      out.exitCode = 0 ∧ ∃ hl2, out.stdout.getLast? =
        some (build_announcement_message args.project tag url hl2 300)) := by
  unfold mainAfterHighlights
  by_cases hai : ai_summary_enabled w.envv = true
  · rw [hai]
    simp only [if_true]
    cases hsum : summarize_highlights_with_ai w.envv tag hl 96 w.aiOutcome with
    | mk calls r2 =>
      have hshape := summarize_calls_shape w.envv tag hl 96 w.aiOutcome
      rw [hsum] at hshape
      cases r2 with
      | error e =>
        simp only [hsum]
        constructor
        · intro c hc
          rcases hshape with h | h
          · rw [show calls = [] from h] at hc
            cases hc
          · rw [show calls = [NetCall.aiChatCompletion] from h] at hc
            simpa using hc
        · intro out hout
          exact Except.noConfusion hout
      | ok sr =>
        simp only [hsum]
        obtain ⟨lines, heq, hlast⟩ := mainWithMessage_dry_run args w tag url calls sr.1 sr.2
          (if sr.1 ≠ [] then [sr.1] else hl)
          (if sr.1 = [] ∧ ai_debug_enabled w.envv then
            ["[announce-ai] fallback to changelog: ".toList ++ sr.2] else []) hdry
        constructor
        · intro c hc
          rw [heq] at hc
          rcases hshape with h | h
          · rw [show calls = [] from h] at hc
            cases hc
          · rw [show calls = [NetCall.aiChatCompletion] from h] at hc
            simpa using hc
        · intro out hout
          rw [heq] at hout
          cases Except.ok.inj hout
          exact ⟨rfl, _, hlast⟩
  · rw [if_neg hai]
    obtain ⟨lines, heq, hlast⟩ := mainWithMessage_dry_run args w tag url [] [] [] hl [] hdry
    constructor
    · intro c hc
      rw [heq] at hc
      cases hc
    · intro out hout
      rw [heq] at hout
      cases Except.ok.inj hout
      exact ⟨rfl, _, hlast⟩

/-- Arguments of a dry run with an explicit tag and URL. -/
def cexDryArgs : Args :=
  ⟨"v1.2.3".toList, "https://x".toList, "pvetui".toList, true, false, false⟩

/-- Environment enabling and fully configuring the AI summarizer (base URL
with a scheme, so `urllib.request.Request` accepts it), plus Mastodon and
Bluesky credentials (which dry-run must ignore). -/
def cexDryEnv : PyEnv := fun n =>
  if n = "ANNOUNCE_AI_ENABLED" then "1".toList
  else if n = "ANNOUNCE_AI_BASE_URL" then "http://u".toList
  else if n = "ANNOUNCE_AI_MODEL" then "m".toList
  else if n = "ANNOUNCE_AI_API_KEY" then "k".toList
  else if n = "MASTODON_SERVER" then "https://masto".toList
  else if n = "MASTODON_ACCESS_TOKEN" then "t".toList
  else if n = "BLUESKY_USERNAME" then "b".toList
  else if n = "BLUESKY_APP_PASSWORD" then "p".toList
  else []

/-- Dry-run world with a changelog section for the tag, so the highlights are
non-empty and the AI request is actually attempted. -/
def cexDryWorld : World :=
  ⟨cexDryEnv, none, none, .ok "## [1.2.3]\n- Fixed a bug\n".toList,
   .urlError "down".toList, .emptyBody, .emptyBody, .emptyBody⟩

/-- The same dry-run world but with a scheme-less AI base URL (`u`): the
`Request` constructor raises `ValueError` before any network I/O. -/
def cexDryWorldBadUrl : World :=
  ⟨(fun n => if n = "ANNOUNCE_AI_BASE_URL" then "u".toList else cexDryEnv n),
   none, none, .ok "## [1.2.3]\n- Fixed a bug\n".toList,
   .urlError "down".toList, .emptyBody, .emptyBody, .emptyBody⟩

/-- C2 counterexample: with `--dry-run` set and `ANNOUNCE_AI_*` configured
with a base URL that `urllib` accepts, `main` performs the AI summarization
network request before the dry-run check, so a network call happens although
the dry-run exits 0 — contradicting the claim that dry-run performs no
network call regardless of the `ANNOUNCE_AI_*` variables.  (With a
scheme-less base URL no call is made: the run instead dies on the `Request`
constructor's `ValueError`, still before the dry-run check.) -/
theorem dry_run_performs_ai_network_call :
    cexDryArgs.dry_run = true ∧
    (mainRun cexDryArgs cexDryWorld).1 = [NetCall.aiChatCompletion] ∧
    mainRun cexDryArgs cexDryWorldBadUrl = ([], .error .valueError) := by
  decide

/-- C2 as amended: under `--dry-run`, `main` performs no Mastodon or Bluesky
network call — every network request it can make is the single AI
summarization call (made only when `ANNOUNCE_AI_ENABLED` is truthy, the AI
settings are configured with a base URL whose composed request URL has a
scheme, and highlights exist, and happening before the dry-run check);
whenever `main` returns normally under dry-run it exits 0 (or 1 for
argument-validation failures before any network activity), and on exit 0 the
last line printed is the generated message. -/
theorem dry_run_no_posting_calls (args : Args) (w : World) (hdry : args.dry_run = true) :
    (∀ c ∈ (mainRun args w).1, c = NetCall.aiChatCompletion) ∧
    (∀ out, (mainRun args w).2 = .ok out → out.exitCode = 0 ∨ out.exitCode = 1) ∧
    (∀ out, (mainRun args w).2 = .ok out → out.exitCode = 0 →
      ∃ tag url hl, out.stdout.getLast? =
        some (build_announcement_message args.project tag url hl 300)) := by
  unfold mainRun
  by_cases h1 : args.mastodon_only ∧ args.bluesky_only
  · rw [if_pos h1]
    refine ⟨?_, ?_, ?_⟩
    · intro c hc
      cases hc
    · intro out hout
      cases Except.ok.inj hout
      right
      rfl
    · intro out hout h0
      cases Except.ok.inj hout
      exact absurd h0 (by decide)
  · rw [if_neg h1]
    by_cases h2 : resolvedTag args w = []
    · rw [if_pos h2]
      refine ⟨?_, ?_, ?_⟩
      · intro c hc
        cases hc
      · intro out hout
        cases Except.ok.inj hout
        right
        rfl
      · intro out hout h0
        cases Except.ok.inj hout
        exact absurd h0 (by decide)
    · rw [if_neg h2]
      by_cases h3 : resolvedReleaseUrl args w (resolvedTag args w) = []
      · rw [if_pos h3]
        refine ⟨?_, ?_, ?_⟩
        · intro c hc
          cases hc
        · intro out hout
          cases Except.ok.inj hout
          right
          rfl
        · intro out hout h0
          cases Except.ok.inj hout
          exact absurd h0 (by decide)
      · rw [if_neg h3]
        cases hex : extract_changelog_highlights w.changelogFile (resolvedTag args w) 3 with
        | error e =>
          simp only [hex]
          refine ⟨?_, ?_, ?_⟩
          · intro c hc
            cases hc
          · intro out hout
            exact Except.noConfusion hout
          · intro out hout h0
            exact Except.noConfusion hout
        | ok highlights =>
          simp only [hex]
          have h4 := mainAfterHighlights_dry_run args w (resolvedTag args w)
            (resolvedReleaseUrl args w (resolvedTag args w)) highlights hdry
          refine ⟨h4.1, ?_, ?_⟩
          · intro out hout
            exact Or.inl (h4.2 out hout).1
          · intro out hout h0
            obtain ⟨hl2, hlast⟩ := (h4.2 out hout).2
            exact ⟨resolvedTag args w, resolvedReleaseUrl args w (resolvedTag args w), hl2, hlast⟩

/-- Witness for `dry_run_no_posting_calls` at the concrete dry-run world of
the counterexample: the only call is the AI one, the exit code is 0, and the
generated message is printed last. -/
theorem dry_run_no_posting_calls_witness :
    (∀ c ∈ (mainRun cexDryArgs cexDryWorld).1, c = NetCall.aiChatCompletion) ∧
    (∀ out, (mainRun cexDryArgs cexDryWorld).2 = .ok out →
      out.exitCode = 0 ∨ out.exitCode = 1) :=
  ⟨(dry_run_no_posting_calls cexDryArgs cexDryWorld (by decide)).1,
   (dry_run_no_posting_calls cexDryArgs cexDryWorld (by decide)).2.1⟩

/-- UTF-8 byte length of a cons. -/
theorem utf8Len_cons (c : Char) (s : Str) : utf8Len (c :: s) = c.utf8Size + utf8Len s := by
  simp [utf8Len]

/-- UTF-8 byte length is additive over append. -/
theorem utf8Len_append (s t : Str) : utf8Len (s ++ t) = utf8Len s + utf8Len t := by
  simp [utf8Len]

/-- Every character encodes to at least one byte. -/
theorem length_le_utf8Len (s : Str) : s.length ≤ utf8Len s := by
  induction s with
  | nil => simp [utf8Len]
  | cons c rest ih =>
    have := Char.utf8Size_pos c
    rw [utf8Len_cons, List.length_cons]
    omega

/-- A nonempty string has a positive UTF-8 byte length. -/
theorem utf8Len_pos (s : Str) (h : ¬ s = []) : 1 ≤ utf8Len s := by
  have h1 := length_le_utf8Len s
  have h2 : 1 ≤ s.length := by
    cases s with
    | nil => exact absurd rfl h
    | cons a r => simp
  omega

/-- UTF-8 byte length of a take is at most that of the whole string. -/
theorem utf8Len_take_le (s : Str) (n : Nat) : utf8Len (s.take n) ≤ utf8Len s := by
  have h : utf8Len (s.take n) + utf8Len (s.drop n) = utf8Len s := by
    rw [← utf8Len_append, List.take_append_drop]
  omega

/-- UTF-8 byte length of a take is monotone in the number of characters. -/
theorem utf8Len_take_mono (s : Str) (n m : Nat) (h : n ≤ m) :
    utf8Len (s.take n) ≤ utf8Len (s.take m) := by
  have e : (s.take m).take n = s.take n := by
    rw [List.take_take, Nat.min_eq_left h]
  calc utf8Len (s.take n) = utf8Len ((s.take m).take n) := by rw [e]
    _ ≤ utf8Len (s.take m) := utf8Len_take_le _ _

/-- UTF-8 byte length of a take is strictly monotone within the string. -/
theorem utf8Len_take_lt (s : Str) (n m : Nat) (h1 : n < m) (h2 : m ≤ s.length) :
    utf8Len (s.take n) < utf8Len (s.take m) := by
  have hm : n + (m - n) = m := by omega
  have hsplit : s.take m = s.take n ++ (s.drop n).take (m - n) := by
    conv_lhs => rw [← hm]
    rw [List.take_add]
  have hlen : ((s.drop n).take (m - n)).length = m - n := by
    rw [List.length_take, List.length_drop]; omega
  have hpos := length_le_utf8Len ((s.drop n).take (m - n))
  rw [hsplit, utf8Len_append]
  omega

/-- A boolean prefix means the string splits as the prefix plus a remainder. -/
theorem isPrefixOf_exists_append (p : Str) : ∀ (s : Str),
    p.isPrefixOf s = true → ∃ t, s = p ++ t := by
  induction p with
  | nil => intro s _; exact ⟨s, rfl⟩
  | cons a p ih =>
    intro s h
    cases s with
    | nil => simp [List.isPrefixOf] at h
    | cons b rest =>
      simp only [List.isPrefixOf, Bool.and_eq_true, beq_iff_eq] at h
      obtain ⟨t, ht⟩ := ih rest h.2
      exact ⟨t, by rw [h.1, ht]; rfl⟩

/-- A hit of `str.find` is a prefix of the suffix starting at the hit. -/
theorem strFind_isPrefixOf_drop (needle : Str) : ∀ (hay : Str) (i : Nat),
    strFind hay needle = some i → needle.isPrefixOf (hay.drop i) = true := by
  intro hay
  induction hay with
  | nil =>
    intro i h
    rw [strFind] at h
    split at h
    · rename_i hpre
      injection h with h0
      subst h0
      exact hpre
    · exact Option.noConfusion h
  | cons a rest ih =>
    intro i h
    rw [strFind] at h
    split at h
    · rename_i hpre
      injection h with h0
      subst h0
      exact hpre
    · cases hf : strFind rest needle with
      | none => rw [hf] at h; exact Option.noConfusion h
      | some j =>
        rw [hf] at h
        simp only [Option.map] at h
        injection h with h0
        subst h0
        exact ih j hf

/-- Every hashtag match starts at or after the scan position, ends strictly
after it starts, and ends within the scanned text. -/
theorem findHashtagsF_bounds (fuel : Nat) : ∀ (s : Str) (i : Nat) (m : Nat × Nat × Str),
    m ∈ findHashtagsF fuel s i → i ≤ m.1 ∧ m.1 < m.2.1 ∧ m.2.1 ≤ i + s.length := by
  induction fuel with
  | zero =>
    intro s i m h
    cases s <;> simp [findHashtagsF] at h
  | succ fuel ih =>
    intro s i m h
    cases s with
    | nil => simp [findHashtagsF] at h
    | cons c rest =>
      rw [findHashtagsF] at h
      have hTW := takeWhile_length_le isWordChar rest
      by_cases hcond : c = '#' ∧ rest.takeWhile isWordChar ≠ []
      · rw [if_pos hcond] at h
        rcases List.mem_cons.mp h with h1 | h2
        · subst h1
          refine ⟨le_refl _, ?_, ?_⟩
          · show i < i + 1 + (rest.takeWhile isWordChar).length
            omega
          · show i + 1 + (rest.takeWhile isWordChar).length ≤ i + (c :: rest).length
            simp only [List.length_cons]
            omega
        · have hb := ih _ _ m h2
          have hd : (rest.drop (rest.takeWhile isWordChar).length).length =
              rest.length - (rest.takeWhile isWordChar).length := List.length_drop ..
          simp only [List.length_cons]
          omega
      · rw [if_neg hcond] at h
        have hb := ih _ _ m h
        simp only [List.length_cons]
        omega

/-- Hashtag matches are produced in order: each match ends at or before the
next one starts. -/
theorem findHashtagsF_pairwise (fuel : Nat) : ∀ (s : Str) (i : Nat),
    List.Pairwise (fun a b : Nat × Nat × Str => a.2.1 ≤ b.1) (findHashtagsF fuel s i) := by
  induction fuel with
  | zero => intro s i; cases s <;> simp [findHashtagsF]
  | succ fuel ih =>
    intro s i
    cases s with
    | nil => simp [findHashtagsF]
    | cons c rest =>
      rw [findHashtagsF]
      by_cases hcond : c = '#' ∧ rest.takeWhile isWordChar ≠ []
      · rw [if_pos hcond]
        refine List.Pairwise.cons ?_ (ih _ _)
        intro m hm
        exact (findHashtagsF_bounds fuel _ _ m hm).1
      · rw [if_neg hcond]
        exact ih _ _

/-- Starting the scan one position later shifts every match by one. -/
theorem findHashtagsF_shift (fuel : Nat) : ∀ (s : Str) (i : Nat),
    findHashtagsF fuel s (i + 1) =
      (findHashtagsF fuel s i).map (fun m => (m.1 + 1, m.2.1 + 1, m.2.2)) := by
  induction fuel with
  | zero => intro s i; cases s <;> simp [findHashtagsF]
  | succ fuel ih =>
    intro s i
    cases s with
    | nil => simp [findHashtagsF]
    | cons c rest =>
      rw [findHashtagsF, findHashtagsF]
      by_cases hcond : c = '#' ∧ rest.takeWhile isWordChar ≠ []
      · rw [if_pos hcond, if_pos hcond, List.map_cons]
        have e1 : i + 1 + 1 + (rest.takeWhile isWordChar).length =
            i + 1 + (rest.takeWhile isWordChar).length + 1 := by omega
        rw [e1, ih]
      · rw [if_neg hcond, if_neg hcond]
        exact ih rest (i + 1)

/-- Prepending a character other than the hash sign shifts every hashtag match
of a message by one character position. -/
theorem findHashtags_cons (c : Char) (message : Str) (hc : ¬ c = '#') :
    findHashtags (c :: message) =
      (findHashtags message).map (fun m => (m.1 + 1, m.2.1 + 1, m.2.2)) := by
  show findHashtagsF (message.length + 1) (c :: message) 0 =
      (findHashtagsF message.length message 0).map (fun m => (m.1 + 1, m.2.1 + 1, m.2.2))
  rw [findHashtagsF, if_neg (fun h => hc h.1)]
  exact findHashtagsF_shift message.length message 0

/-- C3 counterexample: with message `#a` and release URL `#a` the link facet
and the tag facet returned by `build_bluesky_facets` cover the same byte range
0..2, so the returned facets overlap (the hashtag pattern also matches inside
the URL occurrence). -/
theorem bluesky_facets_overlap_counterexample :
    build_bluesky_facets "#a".toList "#a".toList =
      some [⟨0, 2, .link "#a".toList⟩, ⟨0, 2, .tag "a".toList⟩] ∧
    facetsOverlap ⟨0, 2, .link "#a".toList⟩ ⟨0, 2, .tag "a".toList⟩ = true := by decide

/-- C3 as amended: every facet returned by `build_bluesky_facets` has
`byteStart < byteEnd ≤ utf8Len message`, and the tag facets among them are
mutually disjoint and ordered; only the single link facet may overlap a tag
facet (when the hashtag pattern matches inside the URL occurrence). -/
theorem bluesky_facets_in_bounds_and_tags_disjoint (message release_url : Str)
    (fs : List Facet) (h : build_bluesky_facets message release_url = some fs) :
    (∀ f ∈ fs, f.byteStart < f.byteEnd ∧ f.byteEnd ≤ utf8Len message) ∧
    List.Pairwise (fun a b => a.byteEnd ≤ b.byteStart) (fs.filter Facet.isTag) := by
  have hfs : fs = blueskyFacetList message release_url := by
    rw [build_bluesky_facets] at h
    split at h
    · exact Option.noConfusion h
    · exact (Option.some.inj h).symm
  subst hfs
  constructor
  · intro f hf
    rw [blueskyFacetList] at hf
    rcases List.mem_append.mp hf with hl | ht
    · by_cases hurl : release_url = []
      · rw [if_neg (fun hne => hne hurl)] at hl
        simp at hl
      · rw [if_pos hurl] at hl
        cases hfind : strFind message release_url with
        | none => simp only [hfind] at hl; simp at hl
        | some index =>
          simp only [hfind, List.mem_singleton] at hl
          subst hl
          have hpre := strFind_isPrefixOf_drop release_url message index hfind
          obtain ⟨t, hts⟩ := isPrefixOf_exists_append release_url (message.drop index) hpre
          have hsplit : utf8Len (message.take index) + utf8Len (message.drop index) =
              utf8Len message := by
            rw [← utf8Len_append, List.take_append_drop]
          have hdroplen : utf8Len (message.drop index) =
              utf8Len release_url + utf8Len t := by
            rw [hts, utf8Len_append]
          have hupos := utf8Len_pos release_url hurl
          constructor
          · show utf8Len (message.take index) <
              utf8Len (message.take index) + utf8Len release_url
            omega
          · show utf8Len (message.take index) + utf8Len release_url ≤ utf8Len message
            omega
    · obtain ⟨m, hmem, hg⟩ := List.mem_filterMap.mp ht
      by_cases hrun : m.2.2 = []
      · rw [if_pos hrun] at hg
        exact Option.noConfusion hg
      · rw [if_neg hrun] at hg
        have hf2 := Option.some.inj hg
        subst hf2
        have hb := findHashtagsF_bounds message.length message 0 m hmem
        constructor
        · show utf8Len (message.take m.1) < utf8Len (message.take m.2.1)
          exact utf8Len_take_lt message m.1 m.2.1 hb.2.1 (by omega)
        · show utf8Len (message.take m.2.1) ≤ utf8Len message
          exact utf8Len_take_le message m.2.1
  · have hpw : List.Pairwise (fun a b : Facet => a.byteEnd ≤ b.byteStart)
        ((findHashtags message).filterMap (fun m =>
          if m.2.2 = [] then none
          else some ⟨utf8Len (message.take m.1), utf8Len (message.take m.2.1),
            .tag m.2.2⟩)) := by
      refine List.pairwise_filterMap.mpr ?_
      refine (findHashtagsF_pairwise message.length message 0).imp ?_
      intro a b hab f hf f2 hf2
      by_cases ha : a.2.2 = []
      · rw [if_pos ha] at hf
        cases hf
      · rw [if_neg ha] at hf
        by_cases hb2 : b.2.2 = []
        · rw [if_pos hb2] at hf2
          cases hf2
        · rw [if_neg hb2] at hf2
          have e1 := Option.some.inj (Option.mem_def.mp hf)
          have e2 := Option.some.inj (Option.mem_def.mp hf2)
          subst e1
          subst e2
          show utf8Len (message.take a.2.1) ≤ utf8Len (message.take b.1)
          exact utf8Len_take_mono message a.2.1 b.1 hab
    have hred : ∀ (x y : Nat) (u : Str),
        List.filter Facet.isTag [(⟨x, y, .link u⟩ : Facet)] = [] := fun x y u => rfl
    rw [blueskyFacetList, List.filter_append]
    by_cases hurl : release_url = []
    · rw [if_neg (fun hne => hne hurl), List.filter_nil, List.nil_append]
      exact hpw.sublist (List.filter_sublist _)
    · rw [if_pos hurl]
      cases hfind : strFind message release_url with
      | none =>
        simp only [hfind, List.filter_nil, List.nil_append]
        exact hpw.sublist (List.filter_sublist _)
      | some index =>
        simp only [hfind, hred, List.nil_append]
        exact hpw.sublist (List.filter_sublist _)

/-- Witness for `bluesky_facets_in_bounds_and_tags_disjoint` at the concrete
message `a #b` with release URL `a`. -/
theorem bluesky_facets_in_bounds_and_tags_disjoint_witness :
    (∀ f ∈ ([⟨0, 1, .link "a".toList⟩, ⟨2, 4, .tag "b".toList⟩] : List Facet),
        f.byteStart < f.byteEnd ∧ f.byteEnd ≤ utf8Len "a #b".toList) ∧
    List.Pairwise (fun a b => a.byteEnd ≤ b.byteStart)
      (([⟨0, 1, .link "a".toList⟩, ⟨2, 4, .tag "b".toList⟩] : List Facet).filter
        Facet.isTag) :=
  bluesky_facets_in_bounds_and_tags_disjoint "a #b".toList "a".toList
    [⟨0, 1, .link "a".toList⟩, ⟨2, 4, .tag "b".toList⟩] (by decide)

/-- Prepending a character to the message shifts the link facet's byte range
by that character's UTF-8 size, provided the URL does not start right at the
new head. -/
theorem blueskyLink_cons (c : Char) (message release_url : Str)
    (hp : release_url.isPrefixOf (c :: message) = false) :
    (if release_url ≠ [] then
      match strFind (c :: message) release_url with
      | some index =>
        [(⟨utf8Len ((c :: message).take index),
          utf8Len ((c :: message).take index) + utf8Len release_url,
          FacetFeature.link release_url⟩ : Facet)]
      | none => []
    else []) =
      (if release_url ≠ [] then
        match strFind message release_url with
        | some index =>
          [(⟨utf8Len (message.take index),
            utf8Len (message.take index) + utf8Len release_url,
            FacetFeature.link release_url⟩ : Facet)]
        | none => []
      else []).map
        (fun f => ⟨f.byteStart + c.utf8Size, f.byteEnd + c.utf8Size, f.feature⟩) := by
  by_cases hurl : release_url = []
  · rw [if_neg (fun hne => hne hurl), if_neg (fun hne => hne hurl)]
    rfl
  · rw [if_pos hurl, if_pos hurl]
    have hstep : strFind (c :: message) release_url =
        (strFind message release_url).map (fun i => i + 1) := by
      show (if release_url.isPrefixOf (c :: message) = true then some 0
        else (strFind message release_url).map (fun i => i + 1)) = _
      rw [if_neg (by simp [hp])]
    rw [hstep]
    cases hfind : strFind message release_url with
    | none => rfl
    | some index =>
      show [(⟨utf8Len ((c :: message).take (index + 1)),
          utf8Len ((c :: message).take (index + 1)) + utf8Len release_url,
          FacetFeature.link release_url⟩ : Facet)] = _
      rw [show (c :: message).take (index + 1) = c :: message.take index from rfl,
        utf8Len_cons, Nat.add_comm c.utf8Size (utf8Len (message.take index))]
      have e2 : utf8Len (message.take index) + c.utf8Size + utf8Len release_url =
          utf8Len (message.take index) + utf8Len release_url + c.utf8Size := by omega
      rw [e2]
      rfl

/-- Prepending a character other than the hash sign to the message shifts every
tag facet's byte range by that character's UTF-8 size. -/
theorem blueskyTags_cons (c : Char) (message : Str) (hc : ¬ c = '#') :
    (findHashtags (c :: message)).filterMap (fun m =>
      if m.2.2 = [] then none
      else some (⟨utf8Len ((c :: message).take m.1), utf8Len ((c :: message).take m.2.1),
        FacetFeature.tag m.2.2⟩ : Facet)) =
    ((findHashtags message).filterMap (fun m =>
      if m.2.2 = [] then none
      else some (⟨utf8Len (message.take m.1), utf8Len (message.take m.2.1),
        FacetFeature.tag m.2.2⟩ : Facet))).map
      (fun f => ⟨f.byteStart + c.utf8Size, f.byteEnd + c.utf8Size, f.feature⟩) := by
  rw [findHashtags_cons c message hc, List.filterMap_map, List.map_filterMap]
  refine List.filterMap_congr ?_
  intro m hm
  show (if m.2.2 = [] then none
      else some (⟨utf8Len ((c :: message).take (m.1 + 1)),
        utf8Len ((c :: message).take (m.2.1 + 1)), FacetFeature.tag m.2.2⟩ : Facet)) = _
  by_cases hrun : m.2.2 = []
  · rw [if_pos hrun, if_pos hrun]
    rfl
  · rw [if_neg hrun, if_neg hrun]
    rw [show (c :: message).take (m.1 + 1) = c :: message.take m.1 from rfl,
      show (c :: message).take (m.2.1 + 1) = c :: message.take m.2.1 from rfl,
      utf8Len_cons, utf8Len_cons,
      Nat.add_comm c.utf8Size (utf8Len (message.take m.1)),
      Nat.add_comm c.utf8Size (utf8Len (message.take m.2.1))]
    rfl

/-- C4: on the message `abc https://x/y #tag def` with release URL
`https://x/y`, `build_bluesky_facets` emits a link facet over bytes 4..15 and
a tag facet with value `tag` over bytes 16..20; those byte ranges, read back
from the UTF-8 encoding of the message, decode to exactly `https://x/y` and
`#tag`; and in general prepending a character of `k` UTF-8 bytes (other than
a hash sign, and not starting a new URL occurrence) shifts every byte offset
by `k`, not by the character count. -/
theorem bluesky_facet_byte_offsets :
    build_bluesky_facets "abc https://x/y #tag def".toList "https://x/y".toList =
      some [⟨4, 15, .link "https://x/y".toList⟩, ⟨16, 20, .tag "tag".toList⟩] ∧
    ((utf8Encode "abc https://x/y #tag def".toList).drop 4).take 11 =
      utf8Encode "https://x/y".toList ∧
    ((utf8Encode "abc https://x/y #tag def".toList).drop 16).take 4 =
      utf8Encode "#tag".toList ∧
    ∀ (c : Char) (message release_url : Str), ¬ c = '#' →
      release_url.isPrefixOf (c :: message) = false →
      blueskyFacetList (c :: message) release_url =
        (blueskyFacetList message release_url).map
          (fun f => ⟨f.byteStart + c.utf8Size, f.byteEnd + c.utf8Size, f.feature⟩) := by
  refine ⟨by decide, by decide, by decide, ?_⟩
  intro c message release_url hc hp
  rw [blueskyFacetList, blueskyFacetList, List.map_append]
  congr 1
  · exact blueskyLink_cons c message release_url hp
  · exact blueskyTags_cons c message hc

/-- Witness for `bluesky_facet_byte_offsets`: instantiating the shift clause
with the 3-byte character `€` prepended to `a #b` and release URL `a`. -/
theorem bluesky_facet_byte_offsets_witness :
    blueskyFacetList ('€' :: "a #b".toList) "a".toList =
      (blueskyFacetList "a #b".toList "a".toList).map
        (fun f => ⟨f.byteStart + '€'.utf8Size, f.byteEnd + '€'.utf8Size, f.feature⟩) :=
  bluesky_facet_byte_offsets.2.2.2 '€' "a #b".toList "a".toList (by decide) (by decide)
